import Mathlib

/-!
Verification development for the `text-creator` console editor (`main.cpp`).

Strings of the C++ program are modelled as `List Char` (one `Char` per byte;
the program is ASCII-oriented, see spec §1).  Pure helper functions, the token
analytics engine, the permutation composer, the editing operations and the
command dispatcher are embedded as executable Lean functions.  External
collaborators (file system, subprocess runner, the iostream formatting of
IEEE doubles inside inserted JSON text) are modelled as an explicit `Env`
record of oracles, matching spec §6's "opaque services behind narrow
interfaces".  The two `std::stoul` / `std::stoull` calls in the dispatcher can
throw, so the dispatcher is embedded with `Except`: an `Except.error` result
marks a C++ exception escaping `execute_command`.
-/

/-- Bytes modelled as Lean `Char`s; `Str` plays the role of `std::string`. -/
abbrev Str := List Char

/-- The double-quote character (ASCII 34), used when building shell command
strings in `command_cpp` / `run_shell_capture`. -/
def dq : Char := Char.ofNat 34

/-- C `isdigit` in the default locale, applied to a byte. -/
def isdigitC (c : Char) : Bool := decide ('0' ≤ c ∧ c ≤ '9')

/-- C `isalpha` in the default locale (ASCII letters only), applied to a byte. -/
def isalphaC (c : Char) : Bool :=
  decide (('A' ≤ c ∧ c ≤ 'Z') ∨ ('a' ≤ c ∧ c ≤ 'z'))

/-- C `isspace` in the default locale: space, tab, newline, vertical tab
(0x0b), form feed (0x0c), carriage return. -/
def isspaceC (c : Char) : Bool :=
  decide (c = ' ' ∨ c = '\t' ∨ c = '\n' ∨ c.val = 11 ∨ c.val = 12 ∨ c = '\r')

/-- A character of the token regex `[A-Za-z0-9_]` in `tokenize_words`. -/
def isWordChar (c : Char) : Bool := isalphaC c || isdigitC c || decide (c = '_')

/-- `trim_copy` from main.cpp: removes leading and trailing `isspace` bytes. -/
def trim_copy (s : Str) : Str :=
  ((s.dropWhile (fun c => isspaceC c)).reverse.dropWhile (fun c => isspaceC c)).reverse

/-- Worker for `split_ws`: `acc` is the current in-progress token, reversed. -/
def split_ws_go : Str → Str → List Str
  | [], acc => if acc = [] then [] else [acc.reverse]
  | c :: cs, acc =>
    if isspaceC c then
      if acc = [] then split_ws_go cs [] else acc.reverse :: split_ws_go cs []
    else split_ws_go cs (c :: acc)

/-- `split_ws` from main.cpp: `istringstream >>` extraction, i.e. the maximal
whitespace-separated tokens of `s`, in order. -/
def split_ws (s : Str) : List Str := split_ws_go s []

/-- Worker for `tokenize_words`: `acc` is the current in-progress token,
reversed. -/
def tokenize_go : Str → Str → List Str
  | [], acc => if acc = [] then [] else [acc.reverse]
  | c :: cs, acc =>
    if isWordChar c then tokenize_go cs (c :: acc)
    else if acc = [] then tokenize_go cs [] else acc.reverse :: tokenize_go cs []

/-- `tokenize_words` from main.cpp: all matches of the regex `[A-Za-z0-9_]+`,
i.e. the maximal runs of word characters, in order. -/
def tokenize_words (s : Str) : List Str := tokenize_go s []

/-- The line sequence read by the `while (std::getline(iss, line))` loop in
`open_file`: splitting on `'\n'`, where a trailing `'\n'` does not produce a
final empty segment and empty input produces no segment at all. -/
def getlines : Str → List Str
  | [] => []
  | c :: cs =>
    if c = '\n' then [] :: getlines cs
    else
      match getlines cs with
      | [] => [[c]]
      | l :: rest => (c :: l) :: rest

/-- The `\r`-strip in `open_file`'s read loop: drop a single trailing
carriage return from one line. -/
def stripCR (l : Str) : Str :=
  if l.getLast? = some '\r' then l.dropLast else l

/-- The line splitter inside `insert_text_block`: split on `'\n'`, dropping
every `'\r'`, and always keep the final (possibly empty) segment. -/
def split_block : Str → List Str
  | [] => [[]]
  | c :: cs =>
    if c = '\n' then [] :: split_block cs
    else if c = '\r' then split_block cs
    else
      match split_block cs with
      | [] => [[c]]
      | l :: rest => (c :: l) :: rest

/-- The save-format serialization of the buffer used by `save_file`,
`tok_stats` (buffer branch) and `tok_export`: lines joined by `'\n'` with no
trailing newline (`oss << buffer_[i]; if (i+1<size) oss << '\n';`). -/
def save_content : List Str → Str
  | [] => []
  | [l] => l
  | l :: l' :: ls => l ++ '\n' :: save_content (l' :: ls)

/-- `TokenStats` from main.cpp.  The two entropy fields (`char_entropy`,
`token_entropy`) and the `freq` hash map are not carried: the entropies are
irrational `double`s outside this integer/rational embedding and no claim
concerns them, and `freq`'s only observable used by the claims is its size,
carried here as `unique_tokens` (the number of distinct tokens).  The `double`
ratios `ttr` and `avg_token_len` are modelled as exact rationals. -/
structure TokenStats where
  chars : Nat
  lines : Nat
  tokens : Nat
  unique_tokens : Nat
  digits : Nat
  letters : Nat
  whitespace : Nat
  punctuation : Nat
  ttr : ℚ
  avg_token_len : ℚ

/-- The byte-classification `if/else if` chain in `compute_token_stats`'s
per-byte loop: digit, else letter, else whitespace, else punctuation. -/
def classifyStep (st : TokenStats) (c : Char) : TokenStats :=
  if isdigitC c then { st with digits := st.digits + 1 }
  else if isalphaC c then { st with letters := st.letters + 1 }
  else if isspaceC c then { st with whitespace := st.whitespace + 1 }
  else { st with punctuation := st.punctuation + 1 }

/-- One iteration of the per-byte loop in `compute_token_stats`: count the
byte, count a line on `'\n'`, then classify. -/
def statLoop (st : TokenStats) (c : Char) : TokenStats :=
  classifyStep
    { st with chars := st.chars + 1,
              lines := if c = '\n' then st.lines + 1 else st.lines } c

/-- The zero-initialised `TokenStats` with `st.lines = 1`, as at the top of
`compute_token_stats`. -/
def statInit : TokenStats :=
  { chars := 0, lines := 1, tokens := 0, unique_tokens := 0, digits := 0,
    letters := 0, whitespace := 0, punctuation := 0, ttr := 0,
    avg_token_len := 0 }

/-- `compute_token_stats` from main.cpp: the byte loop, then the token
statistics.  `st.freq.size()` equals the number of distinct tokens, embedded
as `toks.dedup.length`; the guarded `double` divisions for `ttr` and
`avg_token_len` are taken over ℚ. -/
def compute_token_stats (content : Str) : TokenStats :=
  let st := content.foldl statLoop statInit
  let toks := tokenize_words content
  let totlen := (toks.map List.length).sum
  let uniq := toks.dedup.length
  { st with
    tokens := toks.length,
    unique_tokens := uniq,
    ttr := if toks.length = 0 then 0 else (uniq : ℚ) / (toks.length : ℚ),
    avg_token_len :=
      if toks.length = 0 then 0 else (totlen : ℚ) / (toks.length : ℚ) }

/-- The sliding-window keys scanned by `top_ngrams`: for each start index `i`
with `i + n ≤ toks.size()`, the ordered tuple `toks[i..i+n)`. -/
def windows (toks : List Str) (n : Nat) : List (List Str) :=
  (List.range (toks.length + 1 - n)).map (fun i => (toks.drop i).take n)

/-- Descending-count order on n-gram entries, the comparator
`a.second > b.second` of the final `std::sort` read as a total preorder. -/
def ngramGE (a b : List Str × Nat) : Prop := b.2 ≤ a.2

instance : DecidableRel ngramGE := fun a b => Nat.decLe b.2 a.2

instance : IsTotal (List Str × Nat) ngramGE :=
  ⟨fun a b => Nat.le_total b.2 a.2⟩

instance : IsTrans (List Str × Nat) ngramGE :=
  ⟨fun _ _ _ hab hbc => Nat.le_trans hbc hab⟩

/-- `top_ngrams` from main.cpp.  The `std::map` pass counts each distinct
window key; its iteration order and the subsequent unstable `std::sort` leave
the order of equal-count entries unspecified (spec §4.5), so the embedding
fixes one admissible execution: distinct keys in first-occurrence order,
stably sorted by descending count.  The properties proved below (emptiness,
length bound, per-entry counts, descending order) hold for every admissible
order. -/
def top_ngrams (toks : List Str) (n topk : Nat) : List (List Str × Nat) :=
  if n = 0 ∨ toks.length < n then []
  else
    let ws := windows toks n
    let vec := ws.dedup.map (fun k => (k, ws.count k))
    (List.insertionSort ngramGE vec).take topk

/-- `SAFE_ALPHABET` from main.cpp. -/
def SAFE_ALPHABET : List Char := ['1', '2', '3']

/-- Loop worker for `safe_pow_u64`: `exp` iterations of
`if (out > UINT64_MAX / base) overflow; out *= base`. -/
def safe_pow_go (base : Nat) : Nat → Nat → Option Nat
  | 0, out => some out
  | e + 1, out =>
    if (2 ^ 64 - 1) / base < out then none else safe_pow_go base e (out * base)

/-- `safe_pow_u64` from main.cpp: `base ^ exp` with a `uint64` overflow
check; `none` models the `return false` overflow path. -/
def safe_pow_u64 (base exp : Nat) : Option Nat := safe_pow_go base exp 1

/-- One line written by `compose_permutations`'s inner loop: position `j`
runs from `len-1` down to `0`, receiving `SAFE_ALPHABET[t % 3]` while `t` is
divided by 3, so the last symbol is `i % 3` and the front is the line for
`i / 3`. -/
def permLine : Nat → Nat → Str
  | 0, _ => []
  | k + 1, t => permLine k (t / 3) ++ [SAFE_ALPHABET.getD (t % 3) '1']

/-- `compose_permutations` from main.cpp: the guard
`!len || len > 10 || !limit`, the overflow-checked `3 ^ len`, the clamp by
`limit`, and the output string with each line followed by `'\n'`. -/
def compose_permutations (len limit : Nat) : Str :=
  if len = 0 ∨ 10 < len ∨ limit = 0 then []
  else
    ((List.range (min ((safe_pow_u64 3 len).getD limit) limit)).map
      (fun i => permLine len i ++ ['\n'])).flatten

/-- The base-3 numeral of `i`, `len` digits, most-significant first, over the
alphabet `'1','2','3'` — the order the specification describes for the
permutation composer.  Stated independently of `permLine` (digit `j` from the
left is `(i / 3 ^ (len-1-j)) % 3`) and proved equal to it below. -/
def base3Line (len i : Nat) : Str :=
  (List.range len).map (fun j => SAFE_ALPHABET.getD ((i / 3 ^ (len - 1 - j)) % 3) '1')

/-- The editor session state of class `Editor` that the core operations
touch: the buffer, the current filename, the status string, the dirty flag
and the cursor.  The viewport offsets, the mode string and the pending
command-line buffer are rendering/input-loop state never read by the
operations embedded here.  Cursor coordinates are `Int`, as the C++ fields
are `int`. -/
structure EditorState where
  buffer : List Str
  filename : Str
  status : Str
  dirty : Bool
  cur_y : Int
  cur_x : Int
deriving DecidableEq, Repr

/-- The external collaborators of spec §6, as oracles: `read` is
`read_text_file` (`none` = unreadable path), `writable` is the success of
`write_text_file`, `shell` is the captured output of `_popen`, `tmpdir` is
`GetTempPathA`, and `renderStats` / `renderExport` produce the JSON text of
`tok_stats` / `tok_export`, whose bytes interpolate iostream-formatted
`double`s and are therefore left to the environment (no claim reads those
bytes). -/
structure Env where
  read : Str → Option Str
  writable : Str → Bool
  shell : Str → Str
  tmpdir : Str
  renderStats : TokenStats → Str → Str
  renderExport : Str → TokenStats → Str → Str

/-- `std::clamp(x, lo, hi)`. -/
def clampInt (x lo hi : Int) : Int := max lo (min x hi)

/-- `std::string::insert(pos, 1, c)`. -/
def strInsert (l : Str) (pos : Nat) (c : Char) : Str :=
  l.take pos ++ c :: l.drop pos

/-- `std::string::erase(pos, 1)`. -/
def strErase1 (l : Str) (pos : Nat) : Str :=
  l.take pos ++ l.drop (pos + 1)

/-- `Editor::insert_char`: re-seed an empty buffer, clamp the column into
the current line, insert the byte, advance the column, mark dirty. -/
def insert_char (st : EditorState) (c : Char) : EditorState :=
  let buf := if st.buffer = [] then [[]] else st.buffer
  let line := buf.getD st.cur_y.toNat []
  let x := clampInt st.cur_x 0 (line.length : Int)
  { st with buffer := buf.set st.cur_y.toNat (strInsert line x.toNat c),
            cur_x := x + 1, dirty := true }

/-- `Editor::backspace`: delete the byte before the cursor, or join the
current line onto the previous one when at column 0. -/
def backspace (st : EditorState) : EditorState :=
  if 0 < st.cur_x then
    { st with
      buffer := st.buffer.set st.cur_y.toNat
        (strErase1 (st.buffer.getD st.cur_y.toNat []) (st.cur_x - 1).toNat),
      cur_x := st.cur_x - 1, dirty := true }
  else if 0 < st.cur_y then
    { st with
      buffer := (st.buffer.set (st.cur_y - 1).toNat
          ((st.buffer.getD (st.cur_y - 1).toNat []) ++
            (st.buffer.getD st.cur_y.toNat []))).eraseIdx st.cur_y.toNat,
      cur_y := st.cur_y - 1,
      cur_x := ((st.buffer.getD (st.cur_y - 1).toNat []).length : Int),
      dirty := true }
  else st

/-- `Editor::insert_text_block`: split the text (dropping `'\r'`), splice the
first segment at the cursor, insert the remaining segments as new lines,
append the severed tail to the last inserted segment, move the cursor to the
end of that segment, mark dirty. -/
def insert_text_block (st : EditorState) (text : Str) : EditorState :=
  if text = [] then st
  else
    let lines := split_block text
    let cury := st.cur_y.toNat
    let cur := st.buffer.getD cury []
    let tail := cur.drop st.cur_x.toNat
    let buf1 := st.buffer.set cury (cur.take st.cur_x.toNat ++ lines.getD 0 [])
    let buf2 := buf1.take (cury + 1) ++ lines.drop 1 ++ buf1.drop (cury + 1)
    let ny := cury + (lines.length - 1)
    let lastLine := buf2.getD ny []
    { st with buffer := buf2.set ny (lastLine ++ tail),
              cur_y := (ny : Int), cur_x := (lastLine.length : Int),
              dirty := true }

/-- The parse phase of `Editor::open_file` applied to the bytes read from
disk: `getline` loop with `'\r'` strip, then the trailing-empty-line fix-up
`if (text.size() && text.back()=='\n' && (buffer_.empty() ||
!buffer_.back().empty())) buffer_.push_back("")`. -/
def open_parse (text : Str) : List Str :=
  let buf := (getlines text).map stripCR
  if text ≠ [] ∧ text.getLast? = some '\n' ∧
      (buf = [] ∨ buf.getLast? ≠ some []) then
    buf ++ [[]]
  else buf

/-- `Editor::open_file`: an unreadable path yields a fresh one-empty-line
buffer and a "New file" status; a readable one is parsed by `open_parse`.
Either way the filename is set, the cursor reset and the dirty flag
cleared. -/
def open_file (env : Env) (st : EditorState) (path : Str) : EditorState :=
  match env.read path with
  | none =>
    { st with buffer := [[]], status := ("New file: ").toList ++ path,
              filename := path, cur_y := 0, cur_x := 0, dirty := false }
  | some text =>
    { st with buffer := open_parse text,
              status := ("Opened ").toList ++ path,
              filename := path, cur_y := 0, cur_x := 0, dirty := false }

/-- `write_text_file` as seen through the environment: success depends on
the path's writability; the on-disk content evolution is external (the
round-trip claim supplies the read-back bytes explicitly). -/
def write_text_file (env : Env) (path : Str) (_content : Str) : Bool :=
  env.writable path

/-- `Editor::save_file`: serialize the buffer, write it; on success update
the filename, report, clear dirty; on failure only report. -/
def save_file (env : Env) (st : EditorState) (path : Str) : EditorState :=
  if write_text_file env path (save_content st.buffer) then
    { st with filename := path, status := ("Saved ").toList ++ path,
              dirty := false }
  else { st with status := ("Error: could not save ").toList ++ path }

/-- `Editor::run_shell_capture`: wrap the command for powershell and hand it
to the subprocess oracle (which also absorbs the `_popen` failure string). -/
def run_shell_capture (env : Env) (cmd : Str) : Str :=
  env.shell (("powershell -NoProfile -Command ").toList ++ [dq] ++ cmd ++ [dq])

/-- `Editor::command_shell`: run the shell command; empty trimmed output is
only reported, otherwise it is inserted at the cursor.  The transient
"Executing:" status is overwritten before the next key is read and is not
modelled. -/
def command_shell (env : Env) (st : EditorState) (cmd : Str) : EditorState :=
  let out := trim_copy (run_shell_capture env cmd)
  if out = [] then
    { st with status := ("Command produced no output.").toList }
  else
    { insert_text_block st out with status := ("Command finished.").toList }

/-- `Editor::command_cpp`: dump the buffer (every line `'\n'`-terminated) to
a temp source file, compile and run it through the shell oracle, and insert
the run output, else the compile diagnostics, else report. -/
def command_cpp (env : Env) (st : EditorState) : EditorState :=
  let src := env.tmpdir ++ ("vimified_main.cpp").toList
  let exe := env.tmpdir ++ ("vimified_run.exe").toList
  let dump := st.buffer.flatMap (fun l => l ++ ['\n'])
  if ¬ write_text_file env src dump then
    { st with status := ("Failed to write temp source.").toList }
  else
    let compile_out := run_shell_capture env
      (("g++ -std=c++23 ").toList ++ [dq] ++ src ++ [dq] ++ (" -o ").toList ++
        [dq] ++ exe ++ [dq])
    let run_out := run_shell_capture env ([dq] ++ exe ++ [dq])
    if trim_copy run_out ≠ [] then
      { insert_text_block st (trim_copy run_out) with
        status := ("Program ran (output inserted).").toList }
    else if trim_copy compile_out ≠ [] then
      { insert_text_block st (trim_copy compile_out) with
        status := ("Compilation failed (diagnostics inserted).").toList }
    else { st with status := ("Program produced no output.").toList }

/-- The shared tail of `Editor::tok_stats`: compute the statistics of the
chosen content, insert their JSON rendering, report. -/
def tok_stats_insert (env : Env) (st : EditorState) (content : Str) :
    EditorState :=
  { insert_text_block st (env.renderStats (compute_token_stats content) content)
      with status := ("Token stats inserted.").toList }

/-- `Editor::tok_stats`: statistics of a named file (unreadable path only
reported) or of the buffer in save format. -/
def tok_stats (env : Env) (st : EditorState) (pathOpt : Option Str) :
    EditorState :=
  match pathOpt with
  | some p =>
    match env.read p with
    | none => { st with status := ("tok: cannot open ").toList ++ p }
    | some content => tok_stats_insert env st content
  | none => tok_stats_insert env st (save_content st.buffer)

/-- The textual report built by `Editor::tok_ngram` before insertion. -/
def render_ngrams (n k : Nat) (res : List (List Str × Nat)) : Str :=
  ("Top ").toList ++ (Nat.repr k).toList ++ [' '] ++ (Nat.repr n).toList ++
    ("-grams:").toList ++ ['\n'] ++
  res.flatMap (fun e =>
    ("  ").toList ++ (List.intercalate [' '] e.1) ++ ("  -> ").toList ++
      (Nat.repr e.2).toList ++ ['\n'])

/-- `Editor::tok_ngram`: reject `N = 0`, otherwise tokenize the buffer (every
line `'\n'`-terminated), rank the n-grams and insert the report. -/
def tok_ngram (st : EditorState) (n k : Nat) : EditorState :=
  if n = 0 then { st with status := ("tok: N must be >=1").toList }
  else
    let content := st.buffer.flatMap (fun l => l ++ ['\n'])
    let res := top_ngrams (tokenize_words content) n k
    { insert_text_block st (render_ngrams n k res) with
      status := ("N-grams inserted.").toList }

/-- `Editor::tok_export`: statistics of the buffer in save format, written as
JSON to `outpath`; only the write outcome is observable in the state. -/
def tok_export (env : Env) (st : EditorState) (outpath : Str) : EditorState :=
  let content := save_content st.buffer
  let js := env.renderExport outpath (compute_token_stats content) content
  if write_text_file env outpath js then
    { st with status := ("Exported token stats -> ").toList ++ outpath }
  else { st with status := ("tok: export failed").toList }

/-- `Editor::tok_perm`: clamp the limit to 5000, compose, and either report
an empty result or insert the composed lines. -/
def tok_perm (st : EditorState) (len limit : Nat) : EditorState :=
  let lim := if 5000 < limit then 5000 else limit
  let out := compose_permutations len lim
  if out = [] then { st with status := ("tok: no permutations").toList }
  else
    { insert_text_block st out with
      status := ("Permutations inserted.").toList }

/-- `std::stoul` / `std::stoull` (base 10) on a whitespace-free token, with
`mx` the maximum of the target unsigned type: an optional sign, then a
maximal digit run.  No digits raises `std::invalid_argument`; a value beyond
`mx` raises `std::out_of_range`; a negative value wraps modulo `mx + 1`.
Both exceptions are modelled as `Except.error` — neither is caught anywhere
in main.cpp. -/
def stoulModel (mx : Nat) (s : Str) : Except Str Nat :=
  let signed : Bool × Str :=
    match s with
    | '-' :: r => (true, r)
    | '+' :: r => (false, r)
    | r => (false, r)
  let ds := signed.2.takeWhile (fun c => isdigitC c)
  if ds = [] then Except.error (("invalid_argument").toList)
  else
    let v := ds.foldl (fun a c => a * 10 + (c.toNat - ('0').toNat)) 0
    if mx < v then Except.error (("out_of_range").toList)
    else Except.ok (if signed.1 then (mx + 1 - v) % (mx + 1) else v)

/-- `Editor::execute_command`.  The return value packs the mutated session
state with the C++ `bool` quit signal; `Except.error` marks a C++ exception
escaping the dispatcher (only the `std::stoul`/`std::stoull` calls in the
`tok ngram` / `tok perm` branches can throw; on Windows `unsigned long` is
32 bits and `uint64_t` is 64).  `show_help` only renders and waits for a
key, leaving the session state unchanged. -/
def execute_command (env : Env) (st : EditorState) (raw : Str) :
    Except Str (EditorState × Bool) :=
  let s := trim_copy raw
  if s = [] then Except.ok ({ st with status := [] }, false)
  else
    let parts := split_ws s
    let cmd := parts.getD 0 []
    if cmd = ("q").toList then
      if st.dirty then
        Except.ok
          ({ st with
             status := ("Unsaved changes! Use :q! to force quit.").toList },
           false)
      else Except.ok (st, true)
    else if cmd = ("q!").toList then Except.ok (st, true)
    else if cmd = ("w").toList then
      Except.ok
        (save_file env st (if 2 ≤ parts.length then parts.getD 1 [] else st.filename),
         false)
    else if cmd = ("o").toList then
      if parts.length < 2 then
        Except.ok ({ st with status := ("Usage: :o <filename>").toList }, false)
      else if st.dirty then
        Except.ok
          ({ st with status := ("Unsaved changes! Save with :w first.").toList },
           false)
      else Except.ok (open_file env st (parts.getD 1 []), false)
    else if cmd = ("help").toList then Except.ok (st, false)
    else if cmd = ("cpp").toList then Except.ok (command_cpp env st, false)
    else if cmd.getD 0 ' ' = '!' then
      let rest := s.drop 1
      let rest := if rest.getD 0 ' ' = ' ' ∧ rest ≠ [] then rest.drop 1 else rest
      Except.ok (command_shell env st rest, false)
    else if cmd = ("tok").toList then
      if parts.length = 1 then
        Except.ok
          ({ st with
             status := ("tok: usage -> :tok stats|ngram|export|perm ...").toList },
           false)
      else if parts.getD 1 [] = ("stats").toList then
        Except.ok
          (tok_stats env st
            (if 3 ≤ parts.length then some (parts.getD 2 []) else none),
           false)
      else if parts.getD 1 [] = ("ngram").toList then do
        let n ← if 3 ≤ parts.length then stoulModel (2 ^ 32 - 1) (parts.getD 2 [])
                else Except.ok 2
        let k ← if 4 ≤ parts.length then stoulModel (2 ^ 32 - 1) (parts.getD 3 [])
                else Except.ok 20
        Except.ok (tok_ngram st n k, false)
      else if parts.getD 1 [] = ("export").toList then
        if parts.length < 3 then
          Except.ok ({ st with status := ("tok: export <file.json>").toList },
            false)
        else Except.ok (tok_export env st (parts.getD 2 []), false)
      else if parts.getD 1 [] = ("perm").toList then
        if parts.length < 4 then
          Except.ok ({ st with status := ("tok: perm <len> <limit>").toList },
            false)
        else do
          let l ← stoulModel (2 ^ 64 - 1) (parts.getD 2 [])
          let m ← stoulModel (2 ^ 64 - 1) (parts.getD 3 [])
          Except.ok (tok_perm st l m, false)
      else
        Except.ok ({ st with status := ("tok: unknown subcommand").toList },
          false)
    else
      Except.ok
        ({ st with status := ("Unknown command: ").toList ++ cmd }, false)

/-- The Document/Cursor invariant of spec §3: at least one line, row within
the buffer, column within the current line (one-past-end allowed). -/
def cursorInv (st : EditorState) : Prop :=
  st.buffer ≠ [] ∧ 0 ≤ st.cur_y ∧ st.cur_y < (st.buffer.length : Int) ∧
    0 ≤ st.cur_x ∧ st.cur_x ≤ ((st.buffer.getD st.cur_y.toNat []).length : Int)

instance (st : EditorState) : Decidable (cursorInv st) := by
  unfold cursorInv; infer_instance

/-- An edit-loop keystroke restricted to the two operations of the
invariant claim: insert a printable byte, or backspace. -/
inductive EditOp where
  | ins : Char → EditOp
  | bs : EditOp

/-- Apply one `EditOp` to the session state. -/
def applyOp (st : EditorState) : EditOp → EditorState
  | .ins c => insert_char st c
  | .bs => backspace st

/-- Apply a sequence of `EditOp`s left to right. -/
def applyOps (st : EditorState) (ops : List EditOp) : EditorState :=
  ops.foldl applyOp st

/-- The line sequence inserted by the `tok perm` pipeline: `tok_perm`'s
5000 clamp followed by `compose_permutations`, read back as lines. -/
def tok_perm_lines (len limit : Nat) : List Str :=
  getlines (compose_permutations len (if 5000 < limit then 5000 else limit))

/-- An environment whose paths are all unreadable but writable, with inert
collaborators; used to evaluate the dispatcher at concrete inputs. -/
def env0 : Env :=
  { read := fun _ => none, writable := fun _ => true, shell := fun _ => [],
    tmpdir := [], renderStats := fun _ _ => [],
    renderExport := fun _ _ _ => [] }

/-- `env0` with every write failing. -/
def envRO : Env := { env0 with writable := fun _ => false }

/-- A clean session holding the single line `hello`. -/
def stHello : EditorState :=
  { buffer := [("hello").toList], filename := ("f.txt").toList, status := [],
    dirty := false, cur_y := 0, cur_x := 0 }

/-- A dirty session holding the single line `hello`. -/
def stDirty : EditorState := { stHello with dirty := true }

/-- A clean session whose buffer is exactly one empty line. -/
def stEmptyLine : EditorState := { stHello with buffer := [[]] }

/-- A clean session holding the two lines `ab`, `c`. -/
def stTwoLines : EditorState :=
  { stHello with buffer := [("ab").toList, ("c").toList] }

/-- `env0` reading every path as the saved bytes of `stTwoLines`'s buffer. -/
def envTwoLines : Env :=
  { env0 with read := fun _ => some (save_content stTwoLines.buffer) }

/-- `env0` reading every path as the saved bytes of `stEmptyLine`'s buffer
(the empty byte string). -/
def envEmptyFile : Env :=
  { env0 with read := fun _ => some (save_content stEmptyLine.buffer) }

/-! ## Helper lemmas on lists -/

theorem getD_set_self {α : Type} (d : α) :
    ∀ (l : List α) (i : Nat) (x : α), i < l.length →
      (l.set i x).getD i d = x := by
  intro l
  induction l with
  | nil => intro i x h; simp at h
  | cons a l ih =>
    intro i x h
    cases i with
    | zero => rfl
    | succ n =>
      simp only [List.set_cons_succ, List.getD_cons_succ]
      exact ih n x (by simpa using Nat.lt_of_succ_lt_succ h)

theorem getD_eraseIdx_lt {α : Type} (d : α) :
    ∀ (l : List α) (i j : Nat), j < i →
      (l.eraseIdx i).getD j d = l.getD j d := by
  intro l
  induction l with
  | nil => intro i j _; rfl
  | cons a l ih =>
    intro i j hj
    cases i with
    | zero => omega
    | succ n =>
      cases j with
      | zero => rfl
      | succ m =>
        simp only [List.eraseIdx_cons_succ, List.getD_cons_succ]
        exact ih n m (by omega)

theorem strInsert_length (l : Str) (pos : Nat) (c : Char) (h : pos ≤ l.length) :
    (strInsert l pos c).length = l.length + 1 := by
  unfold strInsert
  simp only [List.length_append, List.length_cons, List.length_take,
    List.length_drop]
  omega

theorem strErase1_length (l : Str) (pos : Nat) (h : pos < l.length) :
    (strErase1 l pos).length = l.length - 1 := by
  unfold strErase1
  simp only [List.length_append, List.length_take, List.length_drop]
  omega

/-! ## C5: the cursor invariant under insert and backspace -/

theorem insert_char_inv (st : EditorState) (c : Char) (h : cursorInv st) :
    cursorInv (insert_char st c) := by
  obtain ⟨h1, h2, h3, h4, h5⟩ := h
  have hyn : st.cur_y.toNat < st.buffer.length := by omega
  have hxn : st.cur_x.toNat ≤ (st.buffer.getD st.cur_y.toNat []).length := by
    omega
  have hclamp :
      clampInt st.cur_x 0 ((st.buffer.getD st.cur_y.toNat []).length : Int) =
        st.cur_x := by
    unfold clampInt; omega
  simp only [insert_char, cursorInv, if_neg h1, hclamp]
  refine ⟨?_, h2, ?_, by omega, ?_⟩
  · intro hnil
    have := congrArg List.length hnil
    simp only [List.length_set, List.length_nil] at this
    exact h1 (List.length_eq_zero.mp this)
  · simpa only [List.length_set] using h3
  · rw [getD_set_self _ _ _ _ hyn, strInsert_length _ _ _ hxn]
    push_cast
    omega

theorem backspace_inv (st : EditorState) (h : cursorInv st) :
    cursorInv (backspace st) := by
  obtain ⟨h1, h2, h3, h4, h5⟩ := h
  have hyn : st.cur_y.toNat < st.buffer.length := by omega
  by_cases hx : 0 < st.cur_x
  · have hpos : (st.cur_x - 1).toNat <
        (st.buffer.getD st.cur_y.toNat []).length := by omega
    simp only [backspace, cursorInv, if_pos hx]
    refine ⟨?_, h2, ?_, by omega, ?_⟩
    · intro hnil
      have := congrArg List.length hnil
      simp only [List.length_set, List.length_nil] at this
      exact h1 (List.length_eq_zero.mp this)
    · simpa only [List.length_set] using h3
    · rw [getD_set_self _ _ _ _ hyn, strErase1_length _ _ hpos]
      omega
  · by_cases hy : 0 < st.cur_y
    · have hy1 : (st.cur_y - 1).toNat < st.buffer.length := by omega
      have hy1y : (st.cur_y - 1).toNat < st.cur_y.toNat := by omega
      have hlen :
          ((st.buffer.set (st.cur_y - 1).toNat
            ((st.buffer.getD (st.cur_y - 1).toNat []) ++
              (st.buffer.getD st.cur_y.toNat []))).eraseIdx
                st.cur_y.toNat).length = st.buffer.length - 1 := by
        rw [List.length_eraseIdx]
        simp only [List.length_set]
        rw [if_pos hyn]
      simp only [backspace, cursorInv, if_neg hx, if_pos hy]
      refine ⟨?_, by omega, ?_, by positivity, ?_⟩
      · intro hnil
        have := congrArg List.length hnil
        rw [hlen] at this
        simp only [List.length_nil] at this
        omega
      · rw [hlen]; omega
      · rw [getD_eraseIdx_lt _ _ _ _ hy1y,
          getD_set_self _ _ _ _ (by simpa using hy1)]
        simp only [List.length_append]
        push_cast
        omega
    · simp only [backspace, if_neg hx, if_neg hy]
      exact ⟨h1, h2, h3, h4, h5⟩

theorem applyOps_inv :
    ∀ (ops : List EditOp) (st : EditorState), cursorInv st →
      cursorInv (applyOps st ops)
  | [], _, h => h
  | op :: ops, st, h => by
    have hstep : cursorInv (applyOp st op) := by
      cases op with
      | ins c => exact insert_char_inv st c h
      | bs => exact backspace_inv st h
    simpa only [applyOps, List.foldl_cons] using
      applyOps_inv ops (applyOp st op) hstep

/-- C5: for every sequence of insert/backspace operations applied to any
state satisfying the invariant, after every operation (i.e. after every
prefix of the sequence) the Document is non-empty and the cursor satisfies
`0 ≤ row < line_count` and `0 ≤ col ≤ len(line[row])`. -/
theorem edit_ops_preserve_cursor_invariant (st : EditorState)
    (ops : List EditOp) (k : Nat) (h : cursorInv st) :
    cursorInv (applyOps st (ops.take k)) :=
  applyOps_inv (ops.take k) st h

/-- Witness for C5 at a concrete state and operation sequence. -/
theorem edit_ops_preserve_cursor_invariant_witness :
    cursorInv (applyOps stHello (([EditOp.ins 'x', EditOp.bs]).take 2)) :=
  edit_ops_preserve_cursor_invariant stHello [EditOp.ins 'x', EditOp.bs] 2
    (by decide)

/-! ## C6: the dirty-flag protocol -/

/-- C6: after any `insert_char` the dirty flag is true; after a successful
`w` save the dirty flag is false; and a `q` command issued while dirty does
not quit and only changes the status string, leaving the Document's line
sequence (and everything else) unchanged. -/
theorem dirty_flag_protocol (st : EditorState) (env : Env) (c : Char)
    (p : Str) :
    (insert_char st c).dirty = true ∧
    (env.writable p = true → (save_file env st p).dirty = false) ∧
    (st.dirty = true →
      execute_command env st (("q").toList) =
        Except.ok
          ({ st with
             status := ("Unsaved changes! Use :q! to force quit.").toList },
           false)) := by
  refine ⟨rfl, ?_, ?_⟩
  · intro hw
    simp [save_file, write_text_file, hw]
  · intro hd
    simp [execute_command, trim_copy, split_ws, split_ws_go, isspaceC, hd]

/-- Witness for C6 at a concrete dirty state. -/
theorem dirty_flag_protocol_witness :
    (insert_char stDirty 'a').dirty = true ∧
    (save_file env0 stDirty (("g.txt").toList)).dirty = false ∧
    execute_command env0 stDirty (("q").toList) =
      Except.ok
        ({ stDirty with
           status := ("Unsaved changes! Use :q! to force quit.").toList },
         false) :=
  ⟨(dirty_flag_protocol stDirty env0 'a' (("g.txt").toList)).1,
   (dirty_flag_protocol stDirty env0 'a' (("g.txt").toList)).2.1 rfl,
   (dirty_flag_protocol stDirty env0 'a' (("g.txt").toList)).2.2 rfl⟩

/-! ## C3: `o <path>` on an unreadable path -/

/-- C3 counterexample: on an unreadable path, `o <path>` with the dirty flag
clear does NOT leave the buffer's line sequence unchanged — the buffer
`["hello"]` is replaced by a fresh single empty line. -/
theorem open_unreadable_mutates_buffer_cex :
    execute_command env0 stHello (("o nofile.txt").toList) =
      Except.ok
        ({ stHello with buffer := [[]],
                        filename := ("nofile.txt").toList,
                        status := ("New file: nofile.txt").toList },
         false) ∧
    ([[]] : List Str) ≠ stHello.buffer := by
  exact ⟨by rfl, by decide⟩

/-- C3 (amended): for every unreadable path, `o <path>` with the dirty flag
clear recovers locally and reports via the status string
(`New file: <path>`), but it does mutate the Document: the buffer is reset
to a fresh single empty line, the filename is set to the path, the cursor
returns to the origin and the dirty flag stays clear. -/
theorem open_unreadable_fresh_buffer (env : Env) (st : EditorState)
    (raw p : Str)
    (hsplit : split_ws (trim_copy raw) = [("o").toList, p])
    (hd : st.dirty = false) (hr : env.read p = none) :
    execute_command env st raw =
      Except.ok
        ({ st with buffer := [[]], filename := p,
                   status := ("New file: ").toList ++ p,
                   cur_y := 0, cur_x := 0, dirty := false },
         false) := by
  have hne : trim_copy raw ≠ [] := by
    intro h
    rw [h] at hsplit
    simp [split_ws, split_ws_go] at hsplit
  simp [execute_command, hsplit, if_neg hne, hd, open_file, hr]

/-- Witness for the amended C3 at a concrete command line. -/
theorem open_unreadable_fresh_buffer_witness :
    execute_command env0 stHello (("o g").toList) =
      Except.ok
        ({ stHello with buffer := [[]], filename := ("g").toList,
                        status := ("New file: ").toList ++ ("g").toList,
                        cur_y := 0, cur_x := 0, dirty := false },
         false) :=
  open_unreadable_fresh_buffer env0 stHello (("o g").toList) (("g").toList)
    (by decide) rfl rfl

/-! ## C10: `w <path>` retargets the current filename -/

/-- C10: after a successful `w <path>` the current filename becomes `path`
(so a subsequent bare `w` saves to that new path again, leaving the state
fixed with status `Saved <path>`), while a failed save changes only the
status string, leaving the filename (and dirty flag) unchanged. -/
theorem save_with_path_updates_filename (env : Env) (st : EditorState)
    (raw p : Str)
    (hsplit : split_ws (trim_copy raw) = [("w").toList, p]) :
    (env.writable p = true →
      execute_command env st raw =
        Except.ok
          ({ st with filename := p, status := ("Saved ").toList ++ p,
                     dirty := false },
           false) ∧
      execute_command env
          { st with filename := p, status := ("Saved ").toList ++ p,
                    dirty := false }
          (("w").toList) =
        Except.ok
          ({ st with filename := p, status := ("Saved ").toList ++ p,
                     dirty := false },
           false)) ∧
    (env.writable p = false →
      execute_command env st raw =
        Except.ok
          ({ st with status := ("Error: could not save ").toList ++ p },
           false)) := by
  have hne : trim_copy raw ≠ [] := by
    intro h
    rw [h] at hsplit
    simp [split_ws, split_ws_go] at hsplit
  refine ⟨?_, ?_⟩
  · intro hw
    constructor
    · simp [execute_command, hsplit, if_neg hne, save_file, write_text_file,
        hw]
    · simp [execute_command, trim_copy, split_ws, split_ws_go, isspaceC,
        save_file, write_text_file, hw]
  · intro hw
    simp [execute_command, hsplit, if_neg hne, save_file, write_text_file,
      hw]

/-- Witness for C10 at concrete command lines, in a fully writable and in a
read-only environment. -/
theorem save_with_path_updates_filename_witness :
    (execute_command env0 stHello (("w out.txt").toList) =
      Except.ok
        ({ stHello with filename := ("out.txt").toList,
                        status := ("Saved ").toList ++ ("out.txt").toList,
                        dirty := false },
         false) ∧
    execute_command env0
        { stHello with filename := ("out.txt").toList,
                       status := ("Saved ").toList ++ ("out.txt").toList,
                       dirty := false }
        (("w").toList) =
      Except.ok
        ({ stHello with filename := ("out.txt").toList,
                        status := ("Saved ").toList ++ ("out.txt").toList,
                        dirty := false },
         false)) ∧
    execute_command envRO stHello (("w out.txt").toList) =
      Except.ok
        ({ stHello with
           status := ("Error: could not save ").toList ++ ("out.txt").toList },
         false) :=
  ⟨(save_with_path_updates_filename env0 stHello (("w out.txt").toList)
      (("out.txt").toList) (by decide)).1 rfl,
   (save_with_path_updates_filename envRO stHello (("w out.txt").toList)
      (("out.txt").toList) (by decide)).2 rfl⟩

/-! ## C1: the dispatcher is not total — `std::stoul` can throw -/

/-- C1 evaluated at the failing input: the raw command line `tok ngram x`
reaches `std::stoul("x")`, which raises `std::invalid_argument`; nothing in
main.cpp catches it, so the exception escapes `execute_command` (modelled as
`Except.error`) and aborts the process, contradicting the claim that every
outcome is reported through the status string or the quit signal. -/
theorem execute_command_tok_ngram_malformed_throws :
    execute_command env0 stHello (("tok ngram x").toList) =
      Except.error (("invalid_argument").toList) := by
  rfl

/-! ## C8: byte-class counts of `compute_token_stats` -/

theorem statLoop_fields (st : TokenStats) (c : Char) :
    (statLoop st c).chars = st.chars + 1 ∧
    (statLoop st c).lines = st.lines + (if c = '\n' then 1 else 0) ∧
    (statLoop st c).digits = st.digits + (if isdigitC c then 1 else 0) ∧
    (statLoop st c).letters =
      st.letters + (if !(isdigitC c) && isalphaC c then 1 else 0) ∧
    (statLoop st c).whitespace =
      st.whitespace +
        (if !(isdigitC c) && !(isalphaC c) && isspaceC c then 1 else 0) ∧
    (statLoop st c).punctuation =
      st.punctuation +
        (if !(isdigitC c) && !(isalphaC c) && !(isspaceC c) then 1 else 0) := by
  rcases Bool.eq_false_or_eq_true (isdigitC c) with h1 | h1 <;>
    rcases Bool.eq_false_or_eq_true (isalphaC c) with h2 | h2 <;>
      rcases Bool.eq_false_or_eq_true (isspaceC c) with h3 | h3 <;>
        simp [statLoop, classifyStep, h1, h2, h3] <;>
          split <;> simp

set_option linter.unnecessarySeqFocus false in
theorem statLoop_fold :
    ∀ (content : Str) (st : TokenStats),
      (content.foldl statLoop st).chars = st.chars + content.length ∧
      (content.foldl statLoop st).lines = st.lines + content.count '\n' ∧
      (content.foldl statLoop st).digits =
        st.digits + content.countP isdigitC ∧
      (content.foldl statLoop st).letters =
        st.letters + content.countP (fun c => !(isdigitC c) && isalphaC c) ∧
      (content.foldl statLoop st).whitespace =
        st.whitespace +
          content.countP
            (fun c => !(isdigitC c) && !(isalphaC c) && isspaceC c) ∧
      (content.foldl statLoop st).punctuation =
        st.punctuation +
          content.countP
            (fun c => !(isdigitC c) && !(isalphaC c) && !(isspaceC c)) := by
  intro content
  induction content with
  | nil => intro st; simp
  | cons c cs ih =>
    intro st
    obtain ⟨f1, f2, f3, f4, f5, f6⟩ := statLoop_fields st c
    obtain ⟨i1, i2, i3, i4, i5, i6⟩ := ih (statLoop st c)
    simp only [List.foldl_cons, List.length_cons, List.count_cons,
      List.countP_cons, beq_iff_eq] at *
    refine ⟨by omega, ?_, by rw [i3, f3]; omega, by rw [i4, f4]; omega,
      by rw [i5, f5]; omega, by rw [i6, f6]; omega⟩
    · rw [i2, f2]
      by_cases hn : c = '\n' <;> simp [hn] <;> omega


theorem four_class_sum (l : Str) :
    l.countP isdigitC + l.countP (fun c => !(isdigitC c) && isalphaC c) +
      l.countP (fun c => !(isdigitC c) && !(isalphaC c) && isspaceC c) +
      l.countP (fun c => !(isdigitC c) && !(isalphaC c) && !(isspaceC c)) =
    l.length := by
  induction l with
  | nil => rfl
  | cons c cs ih =>
    simp only [List.countP_cons, List.length_cons]
    rcases Bool.eq_false_or_eq_true (isdigitC c) with h1 | h1 <;>
      rcases Bool.eq_false_or_eq_true (isalphaC c) with h2 | h2 <;>
        rcases Bool.eq_false_or_eq_true (isspaceC c) with h3 | h3 <;>
          simp [h1, h2, h3] <;> omega

/-- C8: for every byte string, `compute_token_stats` reports
`lines = 1 + (number of newline bytes)`, `chars = byte count`, the four
byte-class counters count exactly the digit / letter / whitespace /
punctuation classes in that priority order (hence pairwise disjointly), and
they sum to `chars`. -/
theorem compute_token_stats_classes (content : Str) :
    (compute_token_stats content).lines = 1 + content.count '\n' ∧
    (compute_token_stats content).chars = content.length ∧
    (compute_token_stats content).digits = content.countP isdigitC ∧
    (compute_token_stats content).letters =
      content.countP (fun c => !(isdigitC c) && isalphaC c) ∧
    (compute_token_stats content).whitespace =
      content.countP (fun c => !(isdigitC c) && !(isalphaC c) && isspaceC c) ∧
    (compute_token_stats content).punctuation =
      content.countP
        (fun c => !(isdigitC c) && !(isalphaC c) && !(isspaceC c)) ∧
    (compute_token_stats content).digits + (compute_token_stats content).letters +
      (compute_token_stats content).whitespace +
        (compute_token_stats content).punctuation =
      (compute_token_stats content).chars := by
  obtain ⟨f1, f2, f3, f4, f5, f6⟩ := statLoop_fold content statInit
  have hsum := four_class_sum content
  simp only [compute_token_stats]
  refine ⟨?_, ?_, ?_, ?_, ?_, ?_, ?_⟩ <;>
    simp only [f1, f2, f3, f4, f5, f6] <;> simp only [statInit] <;> omega

/-! ## C9: the type-token ratio -/

theorem nodup_all_eq_singleton {α : Type} (l : List α) (t : α)
    (hn : l.Nodup) (hne : l ≠ []) (h : ∀ x ∈ l, x = t) : l = [t] := by
  match l with
  | [] => exact absurd rfl hne
  | [x] => rw [h x (by simp)]
  | x :: y :: l =>
    have hx := h x (by simp)
    have hy := h y (by simp)
    rw [hx, hy] at hn
    simp at hn

/-- C9: the type-token ratio of `compute_token_stats` lies in `[0,1]`, is 0
when there are no tokens, equals 1 when the (non-empty) token list is
duplicate-free, and equals `1/tokens` when all (≥ 1) tokens are
identical. -/
theorem compute_token_stats_ttr (content : Str) :
    0 ≤ (compute_token_stats content).ttr ∧
    (compute_token_stats content).ttr ≤ 1 ∧
    ((compute_token_stats content).tokens = 0 →
      (compute_token_stats content).ttr = 0) ∧
    (tokenize_words content ≠ [] → (tokenize_words content).Nodup →
      (compute_token_stats content).ttr = 1) ∧
    (∀ t : Str, tokenize_words content ≠ [] →
      (∀ x ∈ tokenize_words content, x = t) →
      (compute_token_stats content).ttr =
        1 / ((compute_token_stats content).tokens : ℚ)) := by
  have httr : (compute_token_stats content).ttr =
      if (tokenize_words content).length = 0 then (0 : ℚ)
      else ((tokenize_words content).dedup.length : ℚ) /
        ((tokenize_words content).length : ℚ) := rfl
  have htok : (compute_token_stats content).tokens =
      (tokenize_words content).length := rfl
  have hle : (tokenize_words content).dedup.length ≤
      (tokenize_words content).length :=
    (List.dedup_sublist (tokenize_words content)).length_le
  refine ⟨?_, ?_, ?_, ?_, ?_⟩
  · rw [httr]
    split
    · exact le_refl 0
    · positivity
  · rw [httr]
    split
    · norm_num
    · rename_i hn
      rw [div_le_one (by positivity)]
      exact_mod_cast hle
  · intro h0
    rw [httr, if_pos (htok ▸ h0)]
  · intro hne hnd
    have hn : (tokenize_words content).length ≠ 0 :=
      fun h => hne (List.length_eq_zero.mp h)
    rw [httr, if_neg hn, List.dedup_eq_self.mpr hnd, div_self (by
      exact_mod_cast hn)]
  · intro t hne hall
    have hn : (tokenize_words content).length ≠ 0 :=
      fun h => hne (List.length_eq_zero.mp h)
    have hded : (tokenize_words content).dedup = [t] := by
      refine nodup_all_eq_singleton _ t (List.nodup_dedup _) ?_
        (fun x hx => hall x (List.dedup_subset _ hx))
      rw [Ne, List.dedup_eq_nil]
      exact hne
    rw [httr, htok, if_neg hn, hded]
    simp

/-! ## C7: `top_ngrams` -/

/-- C7 counterexample: with `K = 0` the result is empty even though `N = 1`
is non-zero and the corpus has one token, so "empty exactly when N is 0 or
the corpus is shorter than N" fails as stated (for every K). -/
theorem top_ngrams_topk_zero_cex :
    top_ngrams [("a").toList] 1 0 = [] ∧
    ¬ (1 = 0 ∨ ([("a").toList] : List (List Char)).length < 1) := by
  exact ⟨by decide, by decide⟩

/-- C7 (amended): `top_ngrams` returns the empty list exactly when `N = 0`,
or the token list has fewer than `N` tokens, or `K = 0`; otherwise it
returns at most `K` entries, each entry's count is the number of
sliding-window occurrences of that ordered `N`-tuple, and the entries are in
descending-count order. -/
theorem top_ngrams_spec (toks : List Str) (n k : Nat) :
    (top_ngrams toks n k = [] ↔ n = 0 ∨ toks.length < n ∨ k = 0) ∧
    (top_ngrams toks n k).length ≤ k ∧
    (∀ e ∈ top_ngrams toks n k, e.2 = (windows toks n).count e.1) ∧
    List.Sorted ngramGE (top_ngrams toks n k) := by
  by_cases hg : n = 0 ∨ toks.length < n
  · simp only [top_ngrams, if_pos hg]
    refine ⟨?_, by simp, by simp, by simp⟩
    constructor
    · intro _
      rcases hg with h | h
      · exact Or.inl h
      · exact Or.inr (Or.inl h)
    · intro _; trivial
  · have hn : ¬ n = 0 := fun h => hg (Or.inl h)
    have hlen : ¬ toks.length < n := fun h => hg (Or.inr h)
    simp only [top_ngrams, if_neg hg]
    have hperm := List.perm_insertionSort ngramGE
      ((windows toks n).dedup.map
        (fun key => (key, (windows toks n).count key)))
    have hsorted := List.sorted_insertionSort ngramGE
      ((windows toks n).dedup.map
        (fun key => (key, (windows toks n).count key)))
    have hsortne : List.insertionSort ngramGE
        ((windows toks n).dedup.map
          (fun key => (key, (windows toks n).count key))) ≠ [] := by
      intro h
      have hvec := ((h ▸ hperm).symm).eq_nil
      rw [List.map_eq_nil_iff, List.dedup_eq_nil] at hvec
      have : (windows toks n).length = 0 := by rw [hvec]; rfl
      rw [windows, List.length_map, List.length_range] at this
      omega
    refine ⟨?_, ?_, ?_, ?_⟩
    · rw [List.take_eq_nil_iff]
      constructor
      · rintro (hk | hs)
        · exact Or.inr (Or.inr hk)
        · exact absurd hs hsortne
      · rintro (h | h | h)
        · exact absurd h hn
        · exact absurd h hlen
        · exact Or.inl h
    · rw [List.length_take]
      exact min_le_left _ _
    · intro e he
      have hmem : e ∈ (windows toks n).dedup.map
          (fun key => (key, (windows toks n).count key)) :=
        hperm.subset (List.mem_of_mem_take he)
      obtain ⟨key, _, rfl⟩ := List.mem_map.mp hmem
      rfl
    · exact List.Pairwise.sublist (List.take_sublist _ _) hsorted

/-- Witness for C7: in the corpus `a b a b a` with `N = 2`, `K = 5`, the
entry for the bigram `(a, b)` in the ranking indeed counts its 2
sliding-window occurrences. -/
theorem top_ngrams_spec_witness :
    (2 : Nat) =
      (windows [("a").toList, ("b").toList, ("a").toList, ("b").toList,
        ("a").toList] 2).count [("a").toList, ("b").toList] :=
  (top_ngrams_spec [("a").toList, ("b").toList, ("a").toList, ("b").toList,
      ("a").toList] 2 5).2.2.1
    (([("a").toList, ("b").toList], 2)) (by decide)

/-- Witness for C9: `a b` has two distinct tokens (ratio 1); `ab ab` has two
identical tokens (ratio `1/tokens`). -/
theorem compute_token_stats_ttr_witness :
    (compute_token_stats (("a b").toList)).ttr = 1 ∧
    (compute_token_stats (("ab ab").toList)).ttr =
      1 / ((compute_token_stats (("ab ab").toList)).tokens : ℚ) :=
  ⟨(compute_token_stats_ttr (("a b").toList)).2.2.2.1 (by decide) (by decide),
   (compute_token_stats_ttr (("ab ab").toList)).2.2.2.2 (("ab").toList)
     (by decide) (by decide)⟩

/-! ## C2: save/load round trip -/

theorem getlines_append_nl (l r : Str) (hl : '\n' ∉ l) :
    getlines (l ++ '\n' :: r) = l :: getlines r := by
  induction l with
  | nil => simp [getlines]
  | cons c l ih =>
    have hc : c ≠ '\n' := fun h => hl (h ▸ List.mem_cons_self c l)
    have ht := ih (fun h => hl (List.mem_cons_of_mem _ h))
    rw [List.cons_append, getlines, if_neg hc, ht]

theorem getlines_no_nl (l : Str) (hl : '\n' ∉ l) (hne : l ≠ []) :
    getlines l = [l] := by
  induction l with
  | nil => exact absurd rfl hne
  | cons c l ih =>
    have hc : c ≠ '\n' := fun h => hl (h ▸ List.mem_cons_self c l)
    rcases eq_or_ne l [] with h0 | h0
    · subst h0
      rw [getlines, if_neg hc]
      rfl
    · have ht := ih (fun h => hl (List.mem_cons_of_mem _ h)) h0
      rw [getlines, if_neg hc, ht]

theorem save_content_eq_nil (doc : List Str) (h : save_content doc = []) :
    doc = [] ∨ doc = [[]] := by
  match doc with
  | [] => exact Or.inl rfl
  | [l] => exact Or.inr (by rw [show l = [] from h])
  | l :: l' :: ls => simp [save_content] at h

theorem save_getlines (doc : List Str) (hne : doc ≠ [])
    (hnl : ∀ l ∈ doc, '\n' ∉ l) :
    getlines (save_content doc) =
      if doc.getLast? = some [] then doc.dropLast else doc := by
  induction doc with
  | nil => exact absurd rfl hne
  | cons l tl ih =>
    match tl with
    | [] =>
      rcases eq_or_ne l [] with h0 | h0
      · subst h0
        simp [save_content, getlines]
      · rw [show save_content [l] = l from rfl,
          getlines_no_nl l (hnl l (by simp)) h0]
        simp [h0]
    | l' :: ls =>
      have hstep : save_content (l :: l' :: ls) =
          l ++ '\n' :: save_content (l' :: ls) := rfl
      rw [hstep, getlines_append_nl l _ (hnl l (by simp)),
        ih (by simp) (fun x hx => hnl x (List.mem_cons_of_mem _ hx)),
        List.getLast?_cons_cons]
      by_cases hlast : (l' :: ls).getLast? = some []
      · rw [if_pos hlast, if_pos hlast]
        rfl
      · rw [if_neg hlast, if_neg hlast]

theorem save_last_nl (doc : List Str) (hlast : doc.getLast? = some [])
    (hlen : 2 ≤ doc.length) : (save_content doc).getLast? = some '\n' := by
  induction doc with
  | nil => simp at hlast
  | cons l tl ih =>
    match tl with
    | [] => simp at hlen
    | [l'] =>
      have hl' : l' = [] := by simpa using hlast
      subst hl'
      rw [show save_content [l, []] = l ++ ['\n'] from rfl]
      exact List.getLast?_concat l
    | l' :: l'' :: ls =>
      have hstep : save_content (l :: l' :: l'' :: ls) =
          l ++ '\n' :: save_content (l' :: l'' :: ls) := rfl
      have hrec := ih (by simpa using hlast) (by simp)
      rw [hstep, List.getLast?_append]
      have hsne : save_content (l' :: l'' :: ls) ≠ [] := by
        intro h
        rcases save_content_eq_nil _ h with h' | h' <;> simp at h'
      rw [show ('\n' :: save_content (l' :: l'' :: ls)).getLast? =
          (save_content (l' :: l'' :: ls)).getLast? from ?_, hrec]
      · rfl
      · match hs : save_content (l' :: l'' :: ls) with
        | [] => exact absurd hs hsne
        | x :: xs => rw [List.getLast?_cons_cons]

theorem save_last_of_last (doc : List Str) (lst : Str)
    (hlast : doc.getLast? = some lst) (hne : lst ≠ []) :
    (save_content doc).getLast? = lst.getLast? := by
  induction doc with
  | nil => simp at hlast
  | cons l tl ih =>
    match tl with
    | [] =>
      have : l = lst := by simpa using hlast
      subst this
      rfl
    | l' :: ls =>
      have hrec := ih (by simpa using hlast)
      have hstep : save_content (l :: l' :: ls) =
          l ++ '\n' :: save_content (l' :: ls) := rfl
      have hsne : save_content (l' :: ls) ≠ [] := by
        intro h
        rcases save_content_eq_nil _ h with h' | h'
        · simp at h'
        · rw [h'] at hlast
          have : lst = [] := by simpa using hlast
          exact hne this
      rw [hstep, List.getLast?_append,
        show ('\n' :: save_content (l' :: ls)).getLast? =
          (save_content (l' :: ls)).getLast? from ?_, hrec]
      · match hs : (lst.getLast?) with
        | some x => rfl
        | none =>
          rw [List.getLast?_eq_none_iff] at hs
          exact absurd hs hne
      · match hs : save_content (l' :: ls) with
        | [] => exact absurd hs hsne
        | x :: xs => rw [List.getLast?_cons_cons]

theorem stripCR_id (l : Str) (h : l.getLast? ≠ some '\r') : stripCR l = l := by
  rw [stripCR, if_neg h]

theorem map_stripCR_id (L : List Str) (h : ∀ l ∈ L, l.getLast? ≠ some '\r') :
    L.map stripCR = L := by
  rw [List.map_congr_left (fun l hl => stripCR_id l (h l hl))]
  exact List.map_id' L

/-- C2 counterexample: the single-line Document `[""]` saves to the empty
byte string, which loads back as the empty line sequence `[]`, not `[""]` —
save then load does not reproduce every Document. -/
theorem save_open_roundtrip_cex :
    (open_file envEmptyFile stEmptyLine (("p").toList)).buffer = [] ∧
    ([] : List Str) ≠ stEmptyLine.buffer := by
  exact ⟨by rfl, by decide⟩

/-- C2 (amended): for every Document (non-empty sequence of newline-free
lines) in which no line ends with a carriage return and whose last line is
non-empty — or, if the last line is empty, which has at least two lines with
a non-empty second-to-last line — saving with `save_file` and re-loading the
saved bytes with `open_file` reproduces an equal line sequence.  (Documents
ending in `\r` lose it, and a final empty line is only reproduced when it
follows a non-empty line: `[""]`, `["",""]`, `["a","",""]` all load back
shorter.) -/
theorem save_open_roundtrip (st : EditorState) (env : Env) (p : Str)
    (hread : env.read p = some (save_content st.buffer))
    (hne : st.buffer ≠ [])
    (hlines : ∀ l ∈ st.buffer, ('\n') ∉ l ∧ l.getLast? ≠ some '\r')
    (hlast : st.buffer.getLast? ≠ some [] ∨
      (2 ≤ st.buffer.length ∧ st.buffer.dropLast.getLast? ≠ some [])) :
    (open_file env st p).buffer = st.buffer := by
  have hnl : ∀ l ∈ st.buffer, '\n' ∉ l := fun l hl => (hlines l hl).1
  have hcr : ∀ l ∈ st.buffer, l.getLast? ≠ some '\r' :=
    fun l hl => (hlines l hl).2
  simp only [open_file, hread]
  show open_parse (save_content st.buffer) = st.buffer
  by_cases hl : st.buffer.getLast? = some []
  · obtain ⟨h2, hpen⟩ := hlast.resolve_left (by simpa using hl)
    have hbuf : (getlines (save_content st.buffer)).map stripCR =
        st.buffer.dropLast := by
      rw [save_getlines st.buffer hne hnl, if_pos hl]
      exact map_stripCR_id _
        (fun l hl' => hcr l ((List.dropLast_sublist st.buffer).subset hl'))
    have hnlch : (save_content st.buffer).getLast? = some '\n' :=
      save_last_nl st.buffer hl h2
    have htne : save_content st.buffer ≠ [] := by
      intro h
      rw [h] at hnlch
      simp at hnlch
    rw [open_parse]
    simp only [hbuf]
    rw [if_pos ⟨htne, hnlch, Or.inr hpen⟩]
    have hlsteq : st.buffer.getLast hne = [] := by
      have := List.getLast?_eq_getLast st.buffer hne
      rw [hl] at this
      exact (Option.some.injEq _ _).mp this.symm
    calc st.buffer.dropLast ++ [[]]
        = st.buffer.dropLast ++ [st.buffer.getLast hne] := by rw [hlsteq]
      _ = st.buffer := List.dropLast_concat_getLast hne
  · have hlsome : st.buffer.getLast? = some (st.buffer.getLast hne) :=
      List.getLast?_eq_getLast st.buffer hne
    have hlstne : st.buffer.getLast hne ≠ [] := by
      intro h
      rw [h] at hlsome
      exact hl hlsome
    have hbuf : (getlines (save_content st.buffer)).map stripCR =
        st.buffer := by
      rw [save_getlines st.buffer hne hnl, if_neg hl]
      exact map_stripCR_id _ hcr
    have hmem : st.buffer.getLast hne ∈ st.buffer := List.getLast_mem hne
    have hnotnl : (save_content st.buffer).getLast? ≠ some '\n' := by
      rw [save_last_of_last st.buffer _ hlsome hlstne]
      intro h
      have hcin : '\n' ∈ st.buffer.getLast hne := by
        have h' := List.getLast?_eq_getLast (st.buffer.getLast hne) hlstne
        rw [h] at h'
        have : (st.buffer.getLast hne).getLast hlstne = '\n' :=
          ((Option.some.injEq _ _).mp h'.symm)
        rw [← this]
        exact List.getLast_mem hlstne
      exact (hnl _ hmem) hcin
    rw [open_parse]
    simp only [hbuf]
    rw [if_neg (fun h => hnotnl h.2.1)]

/-- Witness for the amended C2: the Document `["ab", "c"]` round-trips. -/
theorem save_open_roundtrip_witness :
    (open_file envTwoLines stTwoLines (("p").toList)).buffer =
      stTwoLines.buffer :=
  save_open_roundtrip stTwoLines envTwoLines (("p").toList) rfl (by decide)
    (by decide) (Or.inl (by decide))

/-! ## C4: the permutation composer -/

theorem safe_pow_small : ∀ len < 11, safe_pow_u64 3 len = some (3 ^ len) := by
  decide

theorem perm_eq_base3 : ∀ (len i : Nat), permLine len i = base3Line len i := by
  intro len
  induction len with
  | zero => intro i; rfl
  | succ k ih =>
    intro i
    rw [permLine, ih (i / 3)]
    show _ = (List.range (k + 1)).map _
    rw [List.range_succ, List.map_append]
    congr 1
    · apply List.map_congr_left
      intro j hj
      have hj' : j < k := List.mem_range.mp hj
      have hdiv : i / 3 / 3 ^ (k - 1 - j) = i / 3 ^ (k + 1 - 1 - j) := by
        rw [Nat.div_div_eq_div_mul]
        congr 1
        rw [show k + 1 - 1 - j = (k - 1 - j) + 1 by omega, pow_succ]
        ring
      rw [hdiv]
    · simp

theorem base3Line_length (len i : Nat) : (base3Line len i).length = len := by
  simp [base3Line]

theorem base3Line_mem (len i : Nat) :
    ∀ c ∈ base3Line len i, c ∈ SAFE_ALPHABET := by
  intro c hc
  rw [base3Line] at hc
  obtain ⟨j, _, rfl⟩ := List.mem_map.mp hc
  have h3 : i / 3 ^ (len - 1 - j) % 3 = 0 ∨ i / 3 ^ (len - 1 - j) % 3 = 1 ∨
      i / 3 ^ (len - 1 - j) % 3 = 2 := by omega
  rcases h3 with h | h | h <;> rw [h] <;> decide

theorem getlines_flatten (L : List Str) (h : ∀ l ∈ L, '\n' ∉ l) :
    getlines ((L.map (fun l => l ++ ['\n'])).flatten) = L := by
  induction L with
  | nil => rfl
  | cons l L ih =>
    rw [List.map_cons, List.flatten_cons, List.append_assoc,
      List.singleton_append, getlines_append_nl l _ (h l (by simp)),
      ih (fun x hx => h x (by simp [hx]))]

/-- C4: for `len` in `[1,10]` and `limit ≥ 1`, the `tok perm` pipeline
produces exactly `min(limit, 3^len, 5000)` lines — the base-3 numerals of
`0, 1, 2, …` over `'1','2','3'`, `len` digits each, most-significant symbol
first, in increasing counting order; each line has exactly `len` symbols of
the alphabet.  If `len` is 0 or exceeds 10, or `limit` is 0, the result is
empty.  In particular `len = 2`, `limit = 100` yields exactly the 9 strings
`11 12 13 21 22 23 31 32 33` in that order. -/
theorem tok_perm_composer_spec (len limit : Nat) :
    (1 ≤ len → len ≤ 10 → 1 ≤ limit →
      tok_perm_lines len limit =
        (List.range (min limit (min (3 ^ len) 5000))).map (base3Line len) ∧
      (tok_perm_lines len limit).length = min limit (min (3 ^ len) 5000) ∧
      ∀ s ∈ tok_perm_lines len limit,
        s.length = len ∧ ∀ c ∈ s, c ∈ SAFE_ALPHABET) ∧
    (len = 0 ∨ 10 < len ∨ limit = 0 → tok_perm_lines len limit = []) ∧
    tok_perm_lines 2 100 =
      [("11").toList, ("12").toList, ("13").toList, ("21").toList,
       ("22").toList, ("23").toList, ("31").toList, ("32").toList,
       ("33").toList] := by
  refine ⟨?_, ?_, by decide⟩
  · intro h1 h10 hlim
    have hclamp : (if 5000 < limit then 5000 else limit) = min limit 5000 := by
      split <;> omega
    have hguard : ¬ (len = 0 ∨ 10 < len ∨ min limit 5000 = 0) := by
      rintro (h | h | h) <;> omega
    have hpow : (safe_pow_u64 3 len).getD (min limit 5000) = 3 ^ len := by
      rw [safe_pow_small len (by omega)]
      rfl
    have htot : min ((safe_pow_u64 3 len).getD (min limit 5000))
        (min limit 5000) = min limit (min (3 ^ len) 5000) := by
      rw [hpow]
      omega
    have hmain : tok_perm_lines len limit =
        (List.range (min limit (min (3 ^ len) 5000))).map (base3Line len) := by
      have hmm : (List.range (min limit (min (3 ^ len) 5000))).map
            (fun i => permLine len i ++ ['\n']) =
          ((List.range (min limit (min (3 ^ len) 5000))).map
            (permLine len)).map (fun l => l ++ ['\n']) := by
        rw [List.map_map]
        rfl
      rw [tok_perm_lines, hclamp, compose_permutations, if_neg hguard, htot,
        hmm, getlines_flatten _ ?_]
      · apply List.map_congr_left
        intro i _
        exact perm_eq_base3 len i
      · intro l hl
        obtain ⟨i, _, rfl⟩ := List.mem_map.mp hl
        rw [perm_eq_base3]
        intro hmem
        have := base3Line_mem len i '\n' hmem
        simp [SAFE_ALPHABET] at this
    refine ⟨hmain, ?_, ?_⟩
    · rw [hmain, List.length_map, List.length_range]
    · intro s hs
      rw [hmain] at hs
      obtain ⟨i, _, rfl⟩ := List.mem_map.mp hs
      exact ⟨base3Line_length len i, base3Line_mem len i⟩
  · intro h
    have hguard : len = 0 ∨ 10 < len ∨
        (if 5000 < limit then 5000 else limit) = 0 := by
      rcases h with h | h | h
      · exact Or.inl h
      · exact Or.inr (Or.inl h)
      · subst h
        simp
    rw [tok_perm_lines, compose_permutations, if_pos ?_]
    · rfl
    · rcases hguard with h' | h' | h'
      · exact Or.inl h'
      · exact Or.inr (Or.inl h')
      · exact Or.inr (Or.inr h')

/-- Witness for C4 at `len = 2`, `limit = 100`. -/
theorem tok_perm_composer_spec_witness :
    tok_perm_lines 2 100 =
      (List.range (min 100 (min (3 ^ 2) 5000))).map (base3Line 2) :=
  ((tok_perm_composer_spec 2 100).1 (by decide) (by decide) (by decide)).1
